import Mathlib

/-!
Shallow embedding of the mzzbscore ranking engine and workbook-rewriting
pipeline (src/app/services/ranking_service.py, src/app/services/excel_service.py,
src/app/utils/validators.py, src/app/config/constants.py), together with
theorems settling the specification claims.

Conventions:
* A spreadsheet / DataFrame cell is a `CellV`: `absent` models `None`/`NaN`
  (a pandas missing value), `num q` a numeric value (modelled over `ℚ`),
  `text s` a non-numeric string value.
* A DataFrame is a `Frame`: a list of column names plus rows, each row a
  list of cells aligned with the column list.
* Diagnostics (`errors` / `warnings` lists of `RankingResult`) are modelled
  by the inductive `Diag`, one constructor per message site in the source.
-/

namespace Mzzb

/-- A spreadsheet / DataFrame cell value.  `absent` stands for `None` or a
pandas missing value (`NaN`/`pd.NA`); `text` stands for a non-numeric
string. -/
inductive CellV where
  | absent : CellV
  | num : ℚ → CellV
  | text : String → CellV
deriving DecidableEq, Repr

/-- `pd.to_numeric(v, errors='coerce')`: numeric values pass through, a
missing value stays missing, a non-numeric string becomes `NaN`. -/
def toNumCoerce : CellV → Option ℚ
  | .num q => some q
  | _ => none

/-- `pd.to_numeric(v, errors='raise')`: numeric values pass through, a
missing value stays missing (`NaN` in, `NaN` out, no exception), a
non-numeric string raises (`none` here models the raised exception, which
the caller in `_calculate_comprehensive_score` catches and turns into
"skip this platform"). -/
def toNumRaise : CellV → Option (Option ℚ)
  | .num q => some (some q)
  | .absent => some none
  | .text _ => none

/-! ## Ranking algorithm

`RankingService._calculate_ranking` calls
`scores.rank(method="min", ascending=False, na_option="keep")` and stores
the result as a nullable-integer column.  `rank` with `ascending=False`
orders the numeric values descending; `method="min"` gives every member of
a tie group the smallest position of the group, i.e. the 1-based position
of the first occurrence of the value in the descending-sorted list of
valid values; `na_option="keep"` leaves missing inputs unranked. -/

/-- Rank of the value `q` among the valid numeric values `valids`
(descending order, ties share the minimal position): one plus the index of
the first element of the descending-sorted list that is not greater
than `q`. -/
def rankMinDesc (valids : List ℚ) (q : ℚ) : ℕ :=
  ((valids.insertionSort (· ≥ ·)).findIdx (fun x => !decide (q < x))) + 1

/-- `RankingService._calculate_ranking` applied to one score column:
coerce to numeric, if no valid numeric value exists set the whole rank
column to missing, otherwise rank the numeric entries (missing entries
keep no rank). -/
def rankColumn (col : List CellV) : List CellV :=
  if (col.map toNumCoerce).filterMap id = [] then col.map (fun _ => CellV.absent)
  else (col.map toNumCoerce).map (fun s =>
    match s with
    | none => CellV.absent
    | some q => CellV.num ((rankMinDesc ((col.map toNumCoerce).filterMap id) q : ℕ) : ℚ))

/-! ## DataFrame model

A `Frame` models a pandas DataFrame: an ordered list of column names and
rows aligned with it.  Cells of a missing column read as missing. -/

structure Frame where
  cols : List String
  rows : List (List CellV)
deriving DecidableEq, Repr

/-- The empty DataFrame `pd.DataFrame()`. -/
def emptyFrame : Frame := ⟨[], []⟩

/-- Index of a column name, `none` when the column is absent
(`c in df.columns` is `colIdx ≠ none`). -/
def Frame.colIdx (f : Frame) (c : String) : Option ℕ :=
  f.cols.indexOf? c

/-- Read one cell of a row by column name (missing column or short row
reads as a missing value). -/
def Frame.cell (f : Frame) (row : List CellV) (c : String) : CellV :=
  match f.colIdx c with
  | some j => row.getD j CellV.absent
  | none => CellV.absent

/-- `df[c] = vals`: overwrite the column when it exists, otherwise append
it on the right. -/
def Frame.setCol (f : Frame) (c : String) (vals : List CellV) : Frame :=
  match f.cols.indexOf? c with
  | some j => ⟨f.cols, (f.rows.zip vals).map (fun p => p.1.set j p.2)⟩
  | none => ⟨f.cols ++ [c], (f.rows.zip vals).map (fun p => p.1 ++ [p.2])⟩

/-! ## Constants (src/app/config/constants.py) -/

def ORIGINAL_NAME : String := "原名"

def NOTES : String := "Notes"

def COMPREHENSIVE_SCORE : String := "综合评分"

def COMPREHENSIVE_RANKING_COLUMN : String := "排名"

def EXCLUDED_NOTES : List String := ["*时长不足", "*数据不足"]

/-- `COMPREHENSIVE_SCORE_WEIGHTS`: score column name → fixed weight
(0.5, 0.2, 0.1, 0.2), iterated in dict insertion order. -/
def COMPREHENSIVE_SCORE_WEIGHTS : List (String × ℚ) :=
  [("Bangumi", 1/2), ("Anilist", 1/5), ("MyAnimelist", 1/10), ("Filmarks", 1/5)]

/-- `PLATFORM_COLUMNS`: platform → (score column, rank column, total
column), iterated in dict insertion order. -/
def PLATFORM_COLUMNS : List (String × String × String × String) :=
  [("Bangumi", "Bangumi", "Bangumi_Rank", "Bangumi_total"),
   ("Anilist", "Anilist", "Anilist_Rank", "Anilist_total"),
   ("MyAnimeList", "MyAnimelist", "Myanimelist_Rank", "MyAnimelist_total"),
   ("Filmarks", "Filmarks", "Filmarks_Rank", "Filmarks_total")]

/-! ## Validation (DataValidator, src/app/utils/validators.py) and
diagnostics -/

/-- Validation errors raised by `RankingService.validate_data` via
`DataValidator`. -/
inductive VErr where
  | emptyInput : VErr
  | missingRequiredColumns : List String → VErr
  | nullKeys : ℕ → VErr
  | duplicateKeys : ℕ → VErr
deriving DecidableEq, Repr

/-- Diagnostics accumulated in `RankingResult.errors` / `warnings` by
`process_rankings`; one constructor per message site. -/
inductive Diag where
  | fatalError : VErr → Diag
  | noValidDataAfterFilter : Diag
  | platformScoreColumnMissing : String → Diag
deriving DecidableEq, Repr

/-- The values of the key column of a frame. -/
def keyVals (f : Frame) : List CellV :=
  f.rows.map (fun r => f.cell r ORIGINAL_NAME)

/-- `RankingService.validate_data`: the data must be non-empty, contain
the `原名` and `Notes` columns, and the key column must have no nulls and
no duplicates (`DataValidator.validate_dataframe_not_empty`,
`validate_required_columns`, `validate_data_integrity`).  Returns the
first raised validation error, `none` on success. -/
def validateData (f : Frame) : Option VErr :=
  if f.rows = [] then some VErr.emptyInput
  else
    let missing := [ORIGINAL_NAME, NOTES].filter (fun c => f.colIdx c = none)
    if missing ≠ [] then some (VErr.missingRequiredColumns missing)
    else
      let ks := keyVals f
      let nulls := ks.countP (fun c => c = CellV.absent)
      if nulls ≠ 0 then some (VErr.nullKeys nulls)
      else
        let dups := ks.length - ks.dedup.length
        if dups ≠ 0 then some (VErr.duplicateKeys dups)
        else none

/-! ## Filtering (`RankingService._filter_entries`) -/

/-- The exclusion mask of one row:
`data[notes_col].fillna('').isin(EXCLUDED_NOTES)`.  A missing notes value
becomes `''`, which is not in the exclusion set; a numeric value is never
in the set of strings; a string is compared exactly (no trimming). -/
def notesExcluded (f : Frame) (row : List CellV) : Bool :=
  match f.cell row NOTES with
  | CellV.text s => EXCLUDED_NOTES.contains s
  | _ => false

/-- `RankingService._filter_entries`: when the notes column is absent,
skip filtering (all rows valid, excluded set `pd.DataFrame()`); otherwise
partition rows by the exclusion mask, returning (valid, excluded). -/
def filterEntries (f : Frame) : Frame × Frame :=
  if f.colIdx NOTES = none then (f, emptyFrame)
  else (⟨f.cols, f.rows.filter (fun r => !(notesExcluded f r))⟩,
        ⟨f.cols, f.rows.filter (fun r => notesExcluded f r)⟩)

/-! ## Composite score (`RankingService._calculate_comprehensive_score`) -/

/-- The valid (score, weight) pairs of one row: for each weighted score
column that exists, convert the cell with `pd.to_numeric(_, errors='raise')`
(a raised exception is caught and the platform skipped), skip missing
values, and keep the score exactly when it is `>= 0`. -/
def validScoreWeights (f : Frame) (row : List CellV) : List (ℚ × ℚ) :=
  COMPREHENSIVE_SCORE_WEIGHTS.filterMap (fun cw =>
    match f.colIdx cw.1 with
    | none => none
    | some j =>
      match toNumRaise (row.getD j CellV.absent) with
      | none => none
      | some none => none
      | some (some q) => if 0 ≤ q then some (q, cw.2) else none)

/-- The composite score of one row: missing when no valid scores exist;
otherwise the weighted sum divided by the total of the present weights,
guarded (as in the source) by `total_weight > 0` and a final
`comprehensive_score >= 0` check. -/
def comprehensiveScoreCell (f : Frame) (row : List CellV) : CellV :=
  let vs := validScoreWeights f row
  if vs = [] then CellV.absent
  else
    let tw := (vs.map Prod.snd).sum
    if 0 < tw then
      let cs := (vs.map (fun p => p.1 * p.2)).sum / tw
      if 0 ≤ cs then CellV.num cs else CellV.absent
    else CellV.absent

/-- `_calculate_comprehensive_score`: create the composite column
(initially all missing) and fill it row by row. -/
def addComprehensive (f : Frame) : Frame :=
  if f.rows = [] then f
  else f.setCol COMPREHENSIVE_SCORE (f.rows.map (comprehensiveScoreCell f))

/-! ## Rank columns on a frame (`RankingService._calculate_ranking`) -/

/-- `_calculate_ranking data score_col rank_col`: empty data is returned
unchanged; a missing score column yields an all-missing rank column;
otherwise the rank column is `rankColumn` of the score column. -/
def calculateRanking (f : Frame) (scoreCol rankCol : String) : Frame :=
  if f.rows = [] then f
  else
    match f.colIdx scoreCol with
    | none => f.setCol rankCol (f.rows.map fun _ => CellV.absent)
    | some j =>
      f.setCol rankCol (rankColumn (f.rows.map (fun r => r.getD j CellV.absent)))

/-- Step 4 of `process_rankings`: per-platform ranks, in dict order; a
missing score column adds a warning and an all-missing rank column. -/
def addPlatformRankings (f0 : Frame) : Frame × List Diag :=
  PLATFORM_COLUMNS.foldl (fun st pc =>
    if st.1.colIdx pc.2.1 ≠ none then
      (calculateRanking st.1 pc.2.1 pc.2.2.1, st.2)
    else
      (st.1.setCol pc.2.2.1 (st.1.rows.map fun _ => CellV.absent),
       st.2 ++ [Diag.platformScoreColumnMissing pc.1])) (f0, [])

/-- `RankingService._add_ranking_columns_to_excluded`: when the excluded
set is non-empty, add every rank column present on the valid data, plus
the composite score and composite rank columns when present, as
all-missing columns. -/
def addRankingColumnsToExcluded (valid excluded : Frame) : Frame :=
  if excluded.rows = [] then excluded
  else
    let rankCols := PLATFORM_COLUMNS.map (fun pc => pc.2.2.1)
    let e1 := rankCols.foldl (fun e rc =>
      if valid.colIdx rc ≠ none then e.setCol rc (e.rows.map fun _ => CellV.absent)
      else e) excluded
    let e2 :=
      if valid.colIdx COMPREHENSIVE_SCORE ≠ none then
        e1.setCol COMPREHENSIVE_SCORE (e1.rows.map fun _ => CellV.absent)
      else e1
    if valid.colIdx COMPREHENSIVE_RANKING_COLUMN ≠ none then
      e2.setCol COMPREHENSIVE_RANKING_COLUMN (e2.rows.map fun _ => CellV.absent)
    else e2

/-- Example record for the C4 analysis: only the Bangumi score is
present, and it is 0. -/
def exFrameZero : Frame :=
  ⟨["原名", "Notes", "Bangumi"], [[CellV.text "A", CellV.absent, CellV.num 0]]⟩

/-- The single row of `exFrameZero`. -/
def exRowZero : List CellV := [CellV.text "A", CellV.absent, CellV.num 0]

/-- Python `str.strip()`: drop leading and trailing whitespace.  (Defined
over the character list so that it evaluates by kernel reduction.) -/
def pyStrip (s : String) : String :=
  ⟨((s.data.dropWhile Char.isWhitespace).reverse.dropWhile Char.isWhitespace).reverse⟩

/-- Example input without a notes column (for C5). -/
def exFrameNoNotes : Frame := ⟨["原名"], [[CellV.text "A"]]⟩

/-- Example input whose key column holds a duplicated value (for C10). -/
def exFrameDupKeys : Frame :=
  ⟨["原名", "Notes"],
   [[CellV.text "A", CellV.absent], [CellV.text "A", CellV.absent]]⟩

/-- Example input whose notes value matches an exclusion sentinel only
after trimming (for C6). -/
def exFrameUntrimmed : Frame :=
  ⟨["原名", "Notes"],
   [[CellV.text "A", CellV.text " *时长不足"], [CellV.text "B", CellV.text "*数据不足"]]⟩

/-- Example input for the C1 analysis: the record has a Bangumi score
(so it is ranked and receives a composite score) but no Filmarks score. -/
def exFrameRanked : Frame :=
  ⟨["原名", "Notes", "Bangumi", "Filmarks"],
   [[CellV.text "A", CellV.absent, CellV.num 8, CellV.absent]]⟩

/-- The single row of `exFrameRanked`. -/
def exRowRanked : List CellV := [CellV.text "A", CellV.absent, CellV.num 8, CellV.absent]

/-! ## Workbook writer (`ExcelService._write_data_to_worksheet`) -/

/-- The per-cell write logic of `_write_data_to_worksheet`: the string
value `"NaN"` is written as the literal text `"NaN"`; a pandas-missing
value (`pd.isna`) is written as `None` (an empty cell); any other value is
written through.  The result is the worksheet cell content, `none` being
an empty cell. -/
def writeCellValue (v : CellV) : Option CellV :=
  match v with
  | CellV.text s => if s = "NaN" then some (CellV.text "NaN") else some (CellV.text s)
  | CellV.absent => none
  | CellV.num q => some (CellV.num q)

/-- The per-row write loop of `_write_data_to_worksheet`: for every column
of the final header map that exists in the source record, write the
record's value through `writeCellValue` (columns missing from the source
are left untouched). -/
def writeRowCells (finalCols : List String) (src : Frame) (row : List CellV) :
    List (String × Option CellV) :=
  finalCols.filterMap (fun c =>
    match src.colIdx c with
    | none => none
    | some j => some (c, writeCellValue (row.getD j CellV.absent)))

/-! ## The full pipeline (`RankingService.process_rankings`) -/

/-- The engine output (`RankingResult`): frames plus diagnostics. -/
structure RResult where
  valid_data : Frame
  excluded_data : Frame
  errors : List Diag
  warnings : List Diag
deriving DecidableEq, Repr

/-- `RankingResult.__post_init__` statistics. -/
def RResult.total_valid (r : RResult) : ℕ := r.valid_data.rows.length

def RResult.total_excluded (r : RResult) : ℕ := r.excluded_data.rows.length

def RResult.total_processed (r : RResult) : ℕ :=
  r.total_valid + r.total_excluded

/-- `RankingService.process_rankings`: validate (a validation error is
caught by the outer handler, which returns the raw data with one fatal
error and no excluded set); filter; on an empty valid set return early
with a warning; otherwise compute the composite score, the composite
rank, the per-platform ranks, and normalize the excluded set's columns. -/
def processRankings (f : Frame) : RResult :=
  match validateData f with
  | some e => ⟨f, emptyFrame, [Diag.fatalError e], []⟩
  | none =>
    let ve := filterEntries f
    if ve.1.rows = [] then ⟨ve.1, ve.2, [], [Diag.noValidDataAfterFilter]⟩
    else
      let v1 := addComprehensive ve.1
      let v2 :=
        if v1.colIdx COMPREHENSIVE_SCORE ≠ none then
          calculateRanking v1 COMPREHENSIVE_SCORE COMPREHENSIVE_RANKING_COLUMN
        else v1
      let vw := addPlatformRankings v2
      ⟨vw.1, addRankingColumnsToExcluded vw.1 ve.2, [], vw.2⟩

/-! ## Atomic commit (`ExcelService._atomic_move_file` and the cleanup in
`_write_ranking_result`'s finally block)

The filesystem is a map from path to file content (content abstracted to
`ℕ`).  Each primitive (`shutil.move`, `os.remove`) either succeeds or, when
its fault flag is set, fails atomically leaving the filesystem unchanged
(the raised exception is modelled by `none`). -/

/-- A filesystem: path → content. -/
def FileSys : Type := String → Option ℕ

/-- `os.path.exists`. -/
def fsExists (fs : FileSys) (p : String) : Bool := (fs p).isSome

/-- `shutil.move src dst`: fails when the source is missing, otherwise the
content moves to `dst` (overwriting it) and `src` disappears. -/
def fsMove (fs : FileSys) (src dst : String) : Option FileSys :=
  match fs src with
  | none => none
  | some c => some (fun p => if p = dst then some c else if p = src then none else fs p)

/-- `os.remove p`. -/
def fsRemove (fs : FileSys) (p : String) : Option FileSys :=
  match fs p with
  | none => none
  | some _ => some (fun q => if q = p then none else fs q)

/-- Fault injection: a primitive with its fault flag set fails without
touching the filesystem. -/
def withFault (fault : Bool) (r : Option FileSys) : Option FileSys :=
  if fault then none else r

/-- `final_path + '.backup'`. -/
def backupPath (p : String) : String := p ++ ".backup"

/-- `_atomic_move_file(temp_path, final_path)`: when the destination
exists, move it to the backup path, move the temp file into place and
delete the backup; if the second move or the delete raises, move the
backup back and re-raise.  When the destination does not exist, a single
move suffices.  `f1 f2 f3 f4` are the fault flags of the first move, the
temp→final move, the backup removal, and the backup-restore move.  On
error the state at raise time is returned in `Except.error`. -/
def atomicMoveFile (f1 f2 f3 f4 : Bool) (fs : FileSys) (tmp fin : String) :
    Except FileSys FileSys :=
  if fsExists fs fin then
    match withFault f1 (fsMove fs fin (backupPath fin)) with
    | none => Except.error fs
    | some fs1 =>
      match withFault f2 (fsMove fs1 tmp fin) with
      | none =>
        match withFault f4 (fsMove fs1 (backupPath fin) fin) with
        | some fsr => Except.error fsr
        | none => Except.error fs1
      | some fs2 =>
        match withFault f3 (fsRemove fs2 (backupPath fin)) with
        | none =>
          match withFault f4 (fsMove fs2 (backupPath fin) fin) with
          | some fsr => Except.error fsr
          | none => Except.error fs2
        | some fs3 => Except.ok fs3
  else
    match withFault f2 (fsMove fs tmp fin) with
    | none => Except.error fs
    | some fs2 => Except.ok fs2

/-- The finally block of `_write_ranking_result`: remove the temp file
when it still exists. -/
def cleanupTemp (tmp : String) (fs : FileSys) : FileSys :=
  if fsExists fs tmp then (fun p => if p = tmp then none else fs p) else fs

/-- The commit step of `_write_ranking_result`: run the atomic move; on
success `temp_file` is set to `None` so the finally block skips; on error
the finally block deletes the leftover temp file.  Returns (success,
final filesystem). -/
def writeCommit (f1 f2 f3 f4 : Bool) (fs : FileSys) (tmp fin : String) :
    Bool × FileSys :=
  match atomicMoveFile f1 f2 f3 f4 fs tmp fin with
  | Except.ok fs2 => (true, fs2)
  | Except.error fs2 => (false, cleanupTemp tmp fs2)

/-! ## Rank column insertion (`ExcelService._insert_ranking_columns`)

The header row of the worksheet is a `List (Option String)` (cell values
of row 2, `none` for an empty cell), 1-based positions.  `current_columns`
is a Python dict name → column index; it is modelled as an association
list where an insert shadows older entries: lookups behave exactly like
the dict (the dict's iteration order is never observed by this code). -/

/-- Python dict String → index. -/
def Dict : Type := List (String × ℕ)

/-- Dict insertion (`d[k] = v`): shadowing cons. -/
def dictPut (d : Dict) (k : String) (v : ℕ) : Dict := (k, v) :: d

/-- Dict lookup. -/
def dictGet (d : Dict) (k : String) : Option ℕ :=
  (d.find? (fun p => p.1 = k)).map Prod.snd

/-- `k in d`. -/
def dictHas (d : Dict) (k : String) : Bool := (dictGet d k).isSome

/-- The loop building `current_columns`: scan header cells left to right
at 1-based positions; a truthy cell value is stripped and mapped to its
position.  `i` is the position of the first cell of `hs`. -/
def buildColumnsAux (hs : List (Option String)) (i : ℕ) (d : Dict) : Dict :=
  match hs with
  | [] => d
  | h :: t =>
    match h with
    | some s =>
      if s = "" then buildColumnsAux t (i + 1) d
      else buildColumnsAux t (i + 1) (dictPut d (pyStrip s) i)
    | none => buildColumnsAux t (i + 1) d

/-- `current_columns` of a header row. -/
def buildColumns (hs : List (Option String)) : Dict := buildColumnsAux hs 1 []

/-- `ws.insert_cols(p)` followed by writing `v` into the new header cell
at 1-based position `p`. -/
def insertCol (hs : List (Option String)) (p : ℕ) (v : Option String) :
    List (Option String) :=
  hs.take (p - 1) ++ [v] ++ hs.drop (p - 1)

/-- `ranking_configs` of `_insert_ranking_columns`:
(score column, total column, rank column). -/
def rankingConfigs : List (String × String × String) :=
  [("Bangumi", "Bangumi_total", "Bangumi_Rank"),
   ("Anilist", "Anilist_total", "Anilist_Rank"),
   ("MyAnimelist", "MyAnimelist_total", "Myanimelist_Rank"),
   ("Filmarks", "Filmarks_total", "Filmarks_Rank")]

/-- One iteration of the insertion loop: skip when the rank column
already exists; skip when the total column is missing; otherwise insert a
new column right of the total column, shift the mapped indices at or
right of the insertion point by one, and record the new column. -/
def insertStep (st : List (Option String) × Dict) (cfg : String × String × String) :
    List (Option String) × Dict :=
  if dictHas st.2 cfg.2.2 then st
  else
    match dictGet st.2 cfg.2.1 with
    | none => st
    | some tidx =>
      (insertCol st.1 (tidx + 1) (some cfg.2.2),
       dictPut (st.2.map (fun p => (p.1, if p.2 ≥ tidx + 1 then p.2 + 1 else p.2)))
         cfg.2.2 (tidx + 1))

/-- `_insert_ranking_columns`, observed on the header row. -/
def insertRankingColumns (hs : List (Option String)) : List (Option String) :=
  (rankingConfigs.foldl insertStep (hs, buildColumns hs)).1

/-- The stripped names of the truthy header cells (the key set of
`buildColumns`, with multiplicities). -/
def headerKeys (hs : List (Option String)) : List String :=
  hs.filterMap (fun h =>
    match h with
    | some s => if s = "" then none else some (pyStrip s)
    | none => none)

/-- The header map is consistent with the header row: a name is a dict
key exactly when it is the stripped value of some truthy header cell. -/
def ColsInv (hs : List (Option String)) (d : Dict) : Prop :=
  ∀ k, dictHas d k = true ↔ k ∈ headerKeys hs

/-! ## Hyperlink relocation (`ExcelService._reapply_hyperlinks`)

Hyperlinks collected by `_collect_hyperlinks` before the insertions are
keyed by (row, original column); the cell contents and hyperlinks of the
worksheet after the insertions are modelled as functions of (row, 1-based
column).  Resolution goes name-based: original column index → original
header name (read from the hardcoded workbook path `"mzzb.xlsx"`; `none`
models a failed reload, after which the function returns with every
hyperlink already cleared) → current column index of that name. -/

/-- One collected hyperlink: `(row, column)` key plus the stored
hyperlink target and display value. -/
structure HLink where
  row : ℕ
  col : ℕ
  target : String
  value : Option CellV
deriving DecidableEq, Repr

/-- `original_columns`: 1-based column index → stripped header name (only
truthy header cells are recorded). -/
def origColName (origHs : List (Option String)) (i : ℕ) : Option String :=
  match origHs.get? (i - 1) with
  | some (some s) => if s = "" then none else some (pyStrip s)
  | _ => none

/-- Per-link column resolution of the reapply loop: original header name
of the link's column, current index of that name
(`column_name_to_index`, later columns shadowing earlier ones exactly as
the dict rebuild does), bounds check against `ws.max_column`. -/
def resolveCol (origHs currHeaders : List (Option String)) (maxCol : ℕ)
    (c0 : ℕ) : Option ℕ :=
  match origColName origHs c0 with
  | none => none
  | some nm =>
    match dictGet (buildColumns currHeaders) nm with
    | none => none
    | some j => if j ≤ maxCol then some j else none

/-- One iteration of the reapply loop: attach the hyperlink at the
resolved position (overwriting any earlier attachment there) and set the
display value only when the target cell is currently empty. -/
def reapplyStep (origHs currHeaders : List (Option String)) (maxCol : ℕ)
    (st : (ℕ → ℕ → Option String) × (ℕ → ℕ → Option CellV)) (l : HLink) :
    (ℕ → ℕ → Option String) × (ℕ → ℕ → Option CellV) :=
  match resolveCol origHs currHeaders maxCol l.col with
  | none => st
  | some newCol =>
    ((fun r c => if r = l.row ∧ c = newCol then some l.target else st.1 r c),
     (fun r c =>
       if r = l.row ∧ c = newCol then
         match st.2 r c with
         | none => l.value
         | some v => some v
       else st.2 r c))

/-- `_reapply_hyperlinks`: clear every hyperlink, reload the original
header map from `"mzzb.xlsx"` (on failure return with the links cleared),
then reattach each collected hyperlink by header name.  Returns the final
(hyperlinks, cell values) of the sheet. -/
def reapplyHyperlinks (mzzbHeaders : Option (List (Option String)))
    (currHeaders : List (Option String)) (maxCol : ℕ)
    (links : List HLink) (cellVal : ℕ → ℕ → Option CellV) :
    (ℕ → ℕ → Option String) × (ℕ → ℕ → Option CellV) :=
  match mzzbHeaders with
  | none => (fun _ _ => none, cellVal)
  | some origHs =>
    links.foldl (reapplyStep origHs currHeaders maxCol) (fun _ _ => none, cellVal)

/-! ## Theorems -/

/-- In a descending-sorted list, the index of the first element that is not
greater than `q` equals the number of elements greater than `q`. -/
theorem findIdx_not_lt_eq_countP (q : ℚ) :
    ∀ l : List ℚ, l.Pairwise (fun a b => b ≤ a) →
      l.findIdx (fun x => !decide (q < x)) = l.countP (fun x => decide (q < x)) := by
  intro l
  induction l with
  | nil => intro _; simp
  | cons x t ih =>
    intro hp
    rcases List.pairwise_cons.mp hp with ⟨hx, ht⟩
    by_cases hqx : q < x
    · have h0 : (fun x => !decide (q < x)) x = false := by simp [hqx]
      simp only [List.findIdx_cons, List.countP_cons, h0, cond_false]
      rw [ih ht]
      simp [hqx]
    · have h0 : (fun x => !decide (q < x)) x = true := by
        simp [hqx]
      have hcnt : t.countP (fun x => decide (q < x)) = 0 := by
        apply List.countP_eq_zero.mpr
        intro y hy
        have hyx : y ≤ x := hx y hy
        have : ¬ q < y := fun h => hqx (lt_of_lt_of_le h hyx)
        simp [this]
      simp only [List.findIdx_cons, List.countP_cons, h0, cond_true]
      simp [hcnt, hqx]

/-- `rankMinDesc` computes competition ranking: one plus the count of
strictly greater valid values. -/
theorem rankMinDesc_eq_one_add_count (valids : List ℚ) (q : ℚ) :
    rankMinDesc valids q = 1 + valids.countP (fun x => decide (q < x)) := by
  unfold rankMinDesc
  have hsorted := List.sorted_insertionSort (fun a b : ℚ => a ≥ b) valids
  have hperm := List.perm_insertionSort (fun a b : ℚ => a ≥ b) valids
  have hpair : (valids.insertionSort (· ≥ ·)).Pairwise (fun a b => b ≤ a) := hsorted
  rw [findIdx_not_lt_eq_countP q _ hpair, hperm.countP_eq]
  omega

/-- Pushing a count over coerced scores to a count over raw cells. -/
theorem countP_filterMap_toNum (col : List CellV) (q : ℚ) :
    (col.filterMap toNumCoerce).countP (fun x => decide (q < x)) =
      col.countP (fun c => match toNumCoerce c with | some x => decide (q < x) | none => false) := by
  induction col with
  | nil => simp
  | cons c t ih =>
    cases c with
    | absent => simpa [List.filterMap_cons, toNumCoerce, List.countP_cons] using ih
    | num x => simp [List.filterMap_cons, toNumCoerce, List.countP_cons, ih]
    | text s => simpa [List.filterMap_cons, toNumCoerce, List.countP_cons] using ih

/-- The `valids` list inside `rankColumn` is the filterMap of the raw
column. -/
theorem valids_eq_filterMap (col : List CellV) :
    (col.map toNumCoerce).filterMap id = col.filterMap toNumCoerce := by
  rw [List.filterMap_map]
  rfl

/-- A numeric entry of a score column is ranked one plus the number of
strictly greater valid values. -/
theorem rankColumn_num {col : List CellV} {i : ℕ} {q : ℚ}
    (h : col[i]? = some (CellV.num q)) :
    (rankColumn col)[i]? =
      some (CellV.num
        (((1 + (col.filterMap toNumCoerce).countP (fun x => decide (q < x)) : ℕ)) : ℚ)) := by
  have hmem : CellV.num q ∈ col := List.mem_iff_getElem?.mpr ⟨i, h⟩
  have hq : q ∈ col.filterMap toNumCoerce :=
    List.mem_filterMap.mpr ⟨CellV.num q, hmem, rfl⟩
  have hne : ¬ (col.map toNumCoerce).filterMap id = [] := by
    rw [valids_eq_filterMap]
    intro hempty
    rw [hempty] at hq
    exact absurd hq (List.not_mem_nil q)
  unfold rankColumn
  rw [if_neg hne, List.getElem?_map, List.getElem?_map, h]
  simp only [Option.map_some']
  rw [valids_eq_filterMap]
  simp only [toNumCoerce]
  rw [rankMinDesc_eq_one_add_count]

/-- An absent or non-numeric entry of a score column receives no rank. -/
theorem rankColumn_absent {col : List CellV} {i : ℕ} {c : CellV}
    (h : col[i]? = some c) (hn : toNumCoerce c = none) :
    (rankColumn col)[i]? = some CellV.absent := by
  unfold rankColumn
  by_cases hv : (col.map toNumCoerce).filterMap id = []
  · rw [if_pos hv, List.getElem?_map, h]
    rfl
  · rw [if_neg hv, List.getElem?_map, List.getElem?_map, h]
    simp only [Option.map_some', hn]

/-- C2: over any score column, each record with a numeric score receives
rank one plus the number of records with a strictly greater numeric score
(so ties share the minimum rank, e.g. scores 9, 9, 8 rank as 1, 1, 3);
records whose score is absent or non-numeric receive no rank; and a column
with no valid numeric value yields an all-absent rank column. -/
theorem c2_competition_ranking (col : List CellV) :
    (∀ (i : ℕ) (q : ℚ), col[i]? = some (CellV.num q) →
      (rankColumn col)[i]? =
        some (CellV.num
          (((1 + (col.filterMap toNumCoerce).countP (fun x => decide (q < x)) : ℕ)) : ℚ)))
    ∧ (∀ (i : ℕ) (c : CellV), col[i]? = some c → toNumCoerce c = none →
        (rankColumn col)[i]? = some CellV.absent)
    ∧ (col.filterMap toNumCoerce = [] →
        ∀ v ∈ rankColumn col, v = CellV.absent)
    ∧ rankColumn [CellV.num 9, CellV.num 9, CellV.num 8] =
        [CellV.num 1, CellV.num 1, CellV.num 3] := by
  refine ⟨fun i q h => rankColumn_num h, fun i c h hn => rankColumn_absent h hn, ?_, by decide⟩
  intro hempty v hv
  unfold rankColumn at hv
  rw [valids_eq_filterMap, hempty] at hv
  simp only [reduceIte] at hv
  rcases List.mem_map.mp hv with ⟨c, _, hc⟩
  exact hc.symm

/-- Witness for C2 at a concrete column. -/
theorem c2_competition_ranking_witness :
    (rankColumn [CellV.num 9, CellV.text "x", CellV.num 9, CellV.absent, CellV.num 8])[4]? =
        some (CellV.num
          ((((1 + ([CellV.num 9, CellV.text "x", CellV.num 9, CellV.absent,
              CellV.num 8].filterMap toNumCoerce).countP (fun x => decide ((8:ℚ) < x)) : ℕ)) : ℚ)))
      ∧ (rankColumn [CellV.num 9, CellV.text "x", CellV.num 9, CellV.absent, CellV.num 8])[1]? =
        some CellV.absent := by
  constructor
  · exact (c2_competition_ranking
      [CellV.num 9, CellV.text "x", CellV.num 9, CellV.absent, CellV.num 8]).1 4 8 (by decide)
  · exact ((c2_competition_ranking
      [CellV.num 9, CellV.text "x", CellV.num 9, CellV.absent, CellV.num 8]).2.1) 1
      (CellV.text "x") (by decide) (by decide)

/-- Every pair collected by `validScoreWeights` has a non-negative score
and one of the four fixed positive weights. -/
theorem mem_validScoreWeights {f : Frame} {row : List CellV} {q w : ℚ}
    (h : (q, w) ∈ validScoreWeights f row) : 0 ≤ q ∧ 0 < w := by
  rcases List.mem_filterMap.mp h with ⟨cw, hcw, heq⟩
  have hw : 0 < cw.2 := by
    simp only [COMPREHENSIVE_SCORE_WEIGHTS, List.mem_cons, List.not_mem_nil, or_false] at hcw
    rcases hcw with h1 | h1 | h1 | h1 <;> rw [h1] <;> norm_num
  rcases hj : f.colIdx cw.1 with _ | j <;> rw [hj] at heq <;> dsimp only at heq
  · exact absurd heq (by simp)
  · rcases hn : toNumRaise (row.getD j CellV.absent) with _ | (_ | q') <;>
      rw [hn] at heq <;> dsimp only at heq
    · exact absurd heq (by simp)
    · exact absurd heq (by simp)
    · by_cases hq' : 0 ≤ q'
      · rw [if_pos hq'] at heq
        have h12 : (q', cw.2) = (q, w) := Option.some_inj.mp heq
        have h1 : q' = q := congrArg Prod.fst h12
        have h2 : cw.2 = w := congrArg Prod.snd h12
        exact ⟨h1 ▸ hq', h2 ▸ hw⟩
      · rw [if_neg hq'] at heq
        exact absurd heq (by simp)

/-- C3: the composite score is absent exactly when no platform score is
usable, and otherwise equals the weighted sum of the usable scores divided
by the sum of their weights (weights renormalized to the present subset);
with only the Bangumi and Anilist scores present the effective weights are
(1/2)/(7/10) and (1/5)/(7/10). -/
theorem c3_composite_weighted_mean (f : Frame) (row : List CellV) :
    (validScoreWeights f row = [] → comprehensiveScoreCell f row = CellV.absent)
    ∧ (validScoreWeights f row ≠ [] →
        comprehensiveScoreCell f row =
          CellV.num (((validScoreWeights f row).map (fun p => p.1 * p.2)).sum /
            ((validScoreWeights f row).map Prod.snd).sum))
    ∧ (∀ b a : ℚ, 0 ≤ b → 0 ≤ a →
        comprehensiveScoreCell ⟨["Bangumi", "Anilist"], [[CellV.num b, CellV.num a]]⟩
            [CellV.num b, CellV.num a] =
          CellV.num (b * ((1/2) / (7/10)) + a * ((1/5) / (7/10)))) := by
  refine ⟨?_, ?_, ?_⟩
  · intro hv
    unfold comprehensiveScoreCell
    rw [if_pos hv]
  · intro hv
    have hwpos : 0 < ((validScoreWeights f row).map Prod.snd).sum := by
      apply List.sum_pos
      · intro x hx
        rcases List.mem_map.mp hx with ⟨p, hp, rfl⟩
        exact (mem_validScoreWeights (by exact hp)).2
      · simpa using hv
    have hnum : 0 ≤ ((validScoreWeights f row).map (fun p => p.1 * p.2)).sum := by
      apply List.sum_nonneg
      intro x hx
      rcases List.mem_map.mp hx with ⟨p, hp, rfl⟩
      have hp2 : (p.1, p.2) ∈ validScoreWeights f row := by simpa using hp
      have h2 := mem_validScoreWeights hp2
      exact mul_nonneg h2.1 (le_of_lt h2.2)
    unfold comprehensiveScoreCell
    rw [if_neg hv, if_pos hwpos, if_pos (div_nonneg hnum (le_of_lt hwpos))]
  · intro b a hb ha
    have hvs : validScoreWeights ⟨["Bangumi", "Anilist"], [[CellV.num b, CellV.num a]]⟩
        [CellV.num b, CellV.num a] = [(b, 1/2), (a, 1/5)] := by
      simp [validScoreWeights, COMPREHENSIVE_SCORE_WEIGHTS, Frame.colIdx, toNumRaise,
        List.indexOf?, hb, ha]
    unfold comprehensiveScoreCell
    rw [hvs]
    have hb2 := mul_nonneg hb (show (0:ℚ) ≤ 1/2 by norm_num)
    have ha2 := mul_nonneg ha (show (0:ℚ) ≤ 1/5 by norm_num)
    dsimp only
    rw [if_neg (show ¬([(b, (1:ℚ)/2), (a, (1:ℚ)/5)] = []) by simp)]
    rw [if_pos (show (0:ℚ) < (List.map Prod.snd [(b, (1:ℚ)/2), (a, (1:ℚ)/5)]).sum by norm_num)]
    rw [if_pos (show (0:ℚ) ≤ (List.map (fun p => p.1 * p.2) [(b, (1:ℚ)/2), (a, (1:ℚ)/5)]).sum /
        (List.map Prod.snd [(b, (1:ℚ)/2), (a, (1:ℚ)/5)]).sum by
      apply div_nonneg _ (by norm_num)
      simp only [List.map_cons, List.map_nil, List.sum_cons, List.sum_nil]
      linarith)]
    congr 1
    simp only [List.map_cons, List.map_nil, List.sum_cons, List.sum_nil]
    ring

/-- Witness for C3 at a concrete record (Bangumi 8, Anilist 6, the other
two platforms absent): composite (8·½ + 6·⅕) / (7/10) = 52/7. -/
theorem c3_composite_weighted_mean_witness :
    comprehensiveScoreCell ⟨["Bangumi", "Anilist"], [[CellV.num 8, CellV.num 6]]⟩
        [CellV.num 8, CellV.num 6] = CellV.num (8 * ((1/2) / (7/10)) + 6 * ((1/5) / (7/10))) :=
  (c3_composite_weighted_mean ⟨["Bangumi", "Anilist"], [[CellV.num 8, CellV.num 6]]⟩
    [CellV.num 8, CellV.num 6]).2.2 8 6 (by norm_num) (by norm_num)

/-- C4 counterexample: a record whose only present platform score is the
Bangumi score 0 (present but ≤ 0).  The claim requires the composite score
to be absent (empty usable subset) and the rank to be absent; the code
computes composite 0 (the zero score and its weight enter the mean) and
assigns the zero score a rank (rank 2 among scores 0 and 5). -/
theorem c4_counterexample :
    ¬ (comprehensiveScoreCell exFrameZero exRowZero = CellV.absent
        ∧ rankColumn [CellV.num 0, CellV.num 5] = [CellV.absent, CellV.num 1]) ∧
      comprehensiveScoreCell exFrameZero exRowZero = CellV.num 0 ∧
      rankColumn [CellV.num 0, CellV.num 5] = [CellV.num 2, CellV.num 1] := by
  have hvs : validScoreWeights exFrameZero exRowZero = [((0:ℚ), (1:ℚ)/2)] := by
    simp [validScoreWeights, COMPREHENSIVE_SCORE_WEIGHTS, Frame.colIdx, toNumRaise,
      List.indexOf?, exFrameZero, exRowZero]
  have hcomp : comprehensiveScoreCell exFrameZero exRowZero = CellV.num 0 := by
    unfold comprehensiveScoreCell
    rw [hvs]
    dsimp only
    norm_num
  have hrank : rankColumn [CellV.num 0, CellV.num 5] = [CellV.num 2, CellV.num 1] := by
    decide
  refine ⟨?_, hcomp, hrank⟩
  intro h
  rw [hcomp] at h
  exact absurd h.1 (by simp)

/-- C4 amended: a present platform score participates in the composite
score (and its weight in the renormalization) iff it is numeric and `≥ 0`
— so a negative or non-numeric score is treated like an absent one, but a
zero score is included; and for ranking every numeric score, including 0
and negative values, receives a rank (only absent / non-numeric values
receive none, which is `rankColumn_absent` / C2). -/
theorem c4_amended (f : Frame) (row : List CellV) :
    (∀ q w : ℚ, (q, w) ∈ validScoreWeights f row ↔
      0 ≤ q ∧ ∃ cw ∈ COMPREHENSIVE_SCORE_WEIGHTS, w = cw.2 ∧
        f.colIdx cw.1 ≠ none ∧ f.cell row cw.1 = CellV.num q)
    ∧ (∀ (col : List CellV) (i : ℕ) (q : ℚ), col[i]? = some (CellV.num q) → q ≤ 0 →
        (rankColumn col)[i]? =
          some (CellV.num
            (((1 + (col.filterMap toNumCoerce).countP (fun x => decide (q < x)) : ℕ)) : ℚ))) := by
  constructor
  · intro q w
    constructor
    · intro h
      rcases List.mem_filterMap.mp h with ⟨cw, hcw, heq⟩
      rcases hj : f.colIdx cw.1 with _ | j <;> rw [hj] at heq <;> dsimp only at heq
      · exact absurd heq (by simp)
      · rcases hn : toNumRaise (row.getD j CellV.absent) with _ | (_ | q') <;>
          rw [hn] at heq <;> dsimp only at heq
        · exact absurd heq (by simp)
        · exact absurd heq (by simp)
        · by_cases hq' : 0 ≤ q'
          · rw [if_pos hq'] at heq
            have h12 : (q', cw.2) = (q, w) := Option.some_inj.mp heq
            have h1 : q' = q := congrArg Prod.fst h12
            have h2 : cw.2 = w := congrArg Prod.snd h12
            have hcell : row.getD j CellV.absent = CellV.num q' := by
              cases hc : row.getD j CellV.absent <;> rw [hc] at hn <;>
                simp [toNumRaise] at hn
              rw [hn]
            refine ⟨h1 ▸ hq', cw, hcw, h2.symm, ?_, ?_⟩
            · rw [hj]
              simp
            · rw [Frame.cell, hj]
              dsimp only
              rw [hcell, h1]
          · rw [if_neg hq'] at heq
            exact absurd heq (by simp)
    · rintro ⟨hq, cw, hcw, hw, hcol, hcell⟩
      apply List.mem_filterMap.mpr
      refine ⟨cw, hcw, ?_⟩
      rcases hj : f.colIdx cw.1 with _ | j
      · exact absurd hj hcol
      · rw [Frame.cell, hj] at hcell
        dsimp only at hcell
        dsimp only
        rw [hcell]
        simp only [toNumRaise]
        rw [if_pos hq, hw]
  · intro col i q h _
    exact rankColumn_num h

/-- Witness for C4 amended: the zero Bangumi score of the counterexample
record is collected with weight 1/2, and the score 0 in the column
[0, 5] receives rank 2 = 1 + 1. -/
theorem c4_amended_witness :
    ((0:ℚ), (1/2:ℚ)) ∈ validScoreWeights exFrameZero exRowZero
      ∧ (rankColumn [CellV.num 0, CellV.num 5])[0]? =
        some (CellV.num
          (((1 + ([CellV.num 0, CellV.num 5].filterMap toNumCoerce).countP
              (fun x => decide ((0:ℚ) < x)) : ℕ)) : ℚ)) := by
  constructor
  · exact ((c4_amended exFrameZero exRowZero).1 0 (1/2)).mpr
      ⟨by norm_num, ("Bangumi", 1/2), by simp [COMPREHENSIVE_SCORE_WEIGHTS], rfl,
        by decide, by decide⟩
  · exact (c4_amended exFrameZero exRowZero).2
      [CellV.num 0, CellV.num 5] 0 0 (by decide) (by norm_num)

/-- When the input fails validation, `process_rankings` returns the raw
input with one fatal error, an empty excluded set and no warnings. -/
theorem processRankings_of_validate_err {f : Frame} {e : VErr}
    (he : validateData f = some e) :
    processRankings f = ⟨f, emptyFrame, [Diag.fatalError e], []⟩ := by
  unfold processRankings
  rw [he]

/-- An input without a notes column fails validation. -/
theorem validateData_some_of_no_notes {f : Frame} (h : f.colIdx NOTES = none) :
    ∃ e, validateData f = some e := by
  unfold validateData
  by_cases hr : f.rows = []
  · exact ⟨_, by rw [if_pos hr]⟩
  · rw [if_neg hr]
    dsimp only
    have hm : ([ORIGINAL_NAME, NOTES].filter (fun c => decide (f.colIdx c = none))) ≠ [] := by
      intro hemp
      have hmem : NOTES ∈ [ORIGINAL_NAME, NOTES].filter (fun c => decide (f.colIdx c = none)) :=
        List.mem_filter.mpr ⟨by simp, by simp [h]⟩
      rw [hemp] at hmem
      exact absurd hmem (List.not_mem_nil _)
    rw [if_pos hm]
    exact ⟨_, rfl⟩

/-- An input whose key column values are not pairwise distinct fails
validation. -/
theorem validateData_some_of_dup {f : Frame} (hdup : ¬ (keyVals f).Nodup) :
    ∃ e, validateData f = some e := by
  unfold validateData
  by_cases hr : f.rows = []
  · exact ⟨_, by rw [if_pos hr]⟩
  rw [if_neg hr]
  dsimp only
  by_cases hm : ([ORIGINAL_NAME, NOTES].filter (fun c => decide (f.colIdx c = none))) ≠ []
  · rw [if_pos hm]
    exact ⟨_, rfl⟩
  rw [if_neg hm]
  by_cases hn : (keyVals f).countP (fun c => decide (c = CellV.absent)) ≠ 0
  · rw [if_pos hn]
    exact ⟨_, rfl⟩
  rw [if_neg hn]
  have hlt : (keyVals f).dedup.length < (keyVals f).length := by
    rcases Nat.lt_or_ge (keyVals f).dedup.length (keyVals f).length with h | h
    · exact h
    · exfalso
      have hsub : (keyVals f).dedup.Sublist (keyVals f) := List.dedup_sublist _
      have hle : (keyVals f).dedup.length ≤ (keyVals f).length := hsub.length_le
      have heq : (keyVals f).dedup = keyVals f :=
        hsub.eq_of_length (le_antisymm hle h)
      exact hdup (heq ▸ List.nodup_dedup (keyVals f))
  rw [if_pos (by omega : (keyVals f).length - (keyVals f).dedup.length ≠ 0)]
  exact ⟨_, rfl⟩

/-- C5 counterexample: on the input `⟨["原名"], [["A"]]⟩` (notes column
absent) the engine reports a fatal error (not a warning), performs no
composite-score or rank computation, and returns the raw input. -/
theorem c5_counterexample :
    (processRankings exFrameNoNotes).errors ≠ [] ∧
    (processRankings exFrameNoNotes).warnings = [] ∧
    (processRankings exFrameNoNotes).valid_data = exFrameNoNotes ∧
    (processRankings exFrameNoNotes).valid_data.colIdx COMPREHENSIVE_SCORE = none := by
  decide

/-- C5 amended: for every input whose notes column is absent, validation
fails (the notes column is a required column), so `process_rankings`
catches the error and returns the raw input unchanged with a non-empty
errors list, no warnings, and an empty excluded set; no filtering,
composite score or ranking is performed.  (The internal filter step would
skip filtering with a log warning, but validation runs first and makes
that branch unreachable.) -/
theorem c5_amended (f : Frame) (h : f.colIdx NOTES = none) :
    (processRankings f).errors ≠ [] ∧
    (processRankings f).valid_data = f ∧
    (processRankings f).excluded_data = emptyFrame ∧
    (processRankings f).warnings = [] := by
  obtain ⟨e, he⟩ := validateData_some_of_no_notes h
  rw [processRankings_of_validate_err he]
  exact ⟨by simp, rfl, rfl, rfl⟩

/-- Witness for C5 amended at the concrete input. -/
theorem c5_amended_witness :
    (processRankings exFrameNoNotes).errors ≠ [] ∧
    (processRankings exFrameNoNotes).valid_data = exFrameNoNotes ∧
    (processRankings exFrameNoNotes).excluded_data = emptyFrame ∧
    (processRankings exFrameNoNotes).warnings = [] :=
  c5_amended exFrameNoNotes (by decide)

/-- Lengths of a Boolean partition of a list add up to its length. -/
theorem length_filter_add_length_filter_not {α : Type} (l : List α) (p : α → Bool) :
    (l.filter p).length + (l.filter (fun a => !(p a))).length = l.length := by
  induction l with
  | nil => simp
  | cons a t ih =>
    by_cases h : p a <;> simp only [List.filter_cons, h] <;> simp [h] <;> omega

/-- C6 counterexample: the record "A" carries the notes value
`" *时长不足"`, whose trimmed form is exactly the exclusion sentinel, so
the claim requires it to be excluded; the code compares the raw value and
keeps it valid. -/
theorem c6_counterexample :
    pyStrip " *时长不足" ∈ EXCLUDED_NOTES ∧
    (filterEntries exFrameUntrimmed).1.rows =
      [[CellV.text "A", CellV.text " *时长不足"]] ∧
    (filterEntries exFrameUntrimmed).2.rows =
      [[CellV.text "B", CellV.text "*数据不足"]] := by
  decide

/-- C6 amended: with a notes column present, the filter partitions the
rows by exact raw match of the notes value (a missing value reads as the
empty string, never in the exclusion set; no trimming is applied): the
excluded rows are exactly those whose raw notes value is one of the two
sentinels, every row with absent or blank notes stays valid, and no row is
lost or duplicated.  `total_processed = total_valid + total_excluded`
holds for every result by construction. -/
theorem c6_amended (f : Frame) (h : f.colIdx NOTES ≠ none) :
    (filterEntries f).1.rows = f.rows.filter (fun r => !(notesExcluded f r)) ∧
    (filterEntries f).2.rows = f.rows.filter (fun r => notesExcluded f r) ∧
    (filterEntries f).1.rows.length + (filterEntries f).2.rows.length = f.rows.length ∧
    (∀ r ∈ f.rows,
      (f.cell r NOTES = CellV.absent ∨
        (∃ s, f.cell r NOTES = CellV.text s ∧ pyStrip s = "")) →
      r ∈ (filterEntries f).1.rows) ∧
    (∀ r : RResult, r.total_processed = r.total_valid + r.total_excluded) := by
  have hfe : filterEntries f =
      (⟨f.cols, f.rows.filter (fun r => !(notesExcluded f r))⟩,
       ⟨f.cols, f.rows.filter (fun r => notesExcluded f r)⟩) := by
    unfold filterEntries
    rw [if_neg h]
  rw [hfe]
  refine ⟨rfl, rfl, ?_, ?_, fun r => rfl⟩
  · have h1 := length_filter_add_length_filter_not f.rows (fun r => notesExcluded f r)
    simp only at h1 ⊢
    omega
  intro r hr hn
  apply List.mem_filter.mpr
  refine ⟨hr, ?_⟩
  have hex : notesExcluded f r = false := by
    unfold notesExcluded
    rcases hn with hab | ⟨s, hs, hstrip⟩
    · rw [hab]
    · rw [hs]
      by_cases hmem : EXCLUDED_NOTES.contains s = true
      · exfalso
        have hs2 : s = "*时长不足" ∨ s = "*数据不足" := by
          have := hmem
          simp [EXCLUDED_NOTES] at this
          exact this
        rcases hs2 with h1 | h1
        · rw [h1] at hstrip
          exact absurd hstrip (by decide)
        · rw [h1] at hstrip
          exact absurd hstrip (by decide)
      · simpa using hmem
  rw [hex]
  rfl

/-- Witness for C6 amended at a concrete input with a notes column. -/
theorem c6_amended_witness :
    (filterEntries exFrameUntrimmed).1.rows =
      exFrameUntrimmed.rows.filter (fun r => !(notesExcluded exFrameUntrimmed r)) ∧
    (filterEntries exFrameUntrimmed).2.rows =
      exFrameUntrimmed.rows.filter (fun r => notesExcluded exFrameUntrimmed r) ∧
    (filterEntries exFrameUntrimmed).1.rows.length +
      (filterEntries exFrameUntrimmed).2.rows.length = exFrameUntrimmed.rows.length ∧
    (∀ r ∈ exFrameUntrimmed.rows,
      (exFrameUntrimmed.cell r NOTES = CellV.absent ∨
        (∃ s, exFrameUntrimmed.cell r NOTES = CellV.text s ∧ pyStrip s = "")) →
      r ∈ (filterEntries exFrameUntrimmed).1.rows) ∧
    (∀ r : RResult, r.total_processed = r.total_valid + r.total_excluded) :=
  c6_amended exFrameUntrimmed (by decide)

/-- C10: for every input whose key column exists and holds a duplicated
value, validation raises, so `process_rankings` performs no filtering,
scoring or ranking: it returns the raw input as `valid_data`, an empty
excluded set, a non-empty errors list and no warnings. -/
theorem c10_duplicate_keys (f : Frame)
    (_hcol : f.colIdx ORIGINAL_NAME ≠ none)
    (hdup : ¬ (keyVals f).Nodup) :
    (processRankings f).errors ≠ [] ∧
    (processRankings f).valid_data = f ∧
    (processRankings f).excluded_data = emptyFrame ∧
    (processRankings f).warnings = [] := by
  obtain ⟨e, he⟩ := validateData_some_of_dup hdup
  rw [processRankings_of_validate_err he]
  exact ⟨by simp, rfl, rfl, rfl⟩

/-- Witness for C10 at a concrete input with a duplicated key. -/
theorem c10_duplicate_keys_witness :
    (processRankings exFrameDupKeys).errors ≠ [] ∧
    (processRankings exFrameDupKeys).valid_data = exFrameDupKeys ∧
    (processRankings exFrameDupKeys).excluded_data = emptyFrame ∧
    (processRankings exFrameDupKeys).warnings = [] :=
  c10_duplicate_keys exFrameDupKeys (by decide) (by decide)

/-- Full pipeline evaluation at the C1 record: the composite score is 8,
the composite rank and Bangumi rank are 1, and the Filmarks rank is a
pandas-missing value (not the text "NaN"). -/
theorem processRankings_exFrameRanked :
    processRankings exFrameRanked =
      ⟨⟨["原名", "Notes", "Bangumi", "Filmarks", "综合评分", "排名",
         "Bangumi_Rank", "Anilist_Rank", "Myanimelist_Rank", "Filmarks_Rank"],
        [[CellV.text "A", CellV.absent, CellV.num 8, CellV.absent, CellV.num 8,
          CellV.num 1, CellV.num 1, CellV.absent, CellV.absent, CellV.absent]]⟩,
       ⟨["原名", "Notes", "Bangumi", "Filmarks"], []⟩, [],
       [Diag.platformScoreColumnMissing "Anilist",
        Diag.platformScoreColumnMissing "MyAnimeList"]⟩ := by
  have hcomp : comprehensiveScoreCell exFrameRanked exRowRanked = CellV.num 8 := by
    have hvs : validScoreWeights exFrameRanked exRowRanked = [((8:ℚ), (1:ℚ)/2)] := by
      simp [validScoreWeights, COMPREHENSIVE_SCORE_WEIGHTS, Frame.colIdx, toNumRaise,
        List.indexOf?, exFrameRanked, exRowRanked]
    unfold comprehensiveScoreCell
    rw [hvs]
    dsimp only
    norm_num
  have h3 : addComprehensive exFrameRanked =
      ⟨["原名", "Notes", "Bangumi", "Filmarks", "综合评分"],
       [[CellV.text "A", CellV.absent, CellV.num 8, CellV.absent, CellV.num 8]]⟩ := by
    unfold addComprehensive
    rw [if_neg (by decide : ¬ (exFrameRanked.rows = []))]
    have hmap : exFrameRanked.rows.map (comprehensiveScoreCell exFrameRanked) =
        [CellV.num 8] := by
      show [comprehensiveScoreCell exFrameRanked exRowRanked] = [CellV.num 8]
      rw [hcomp]
    rw [hmap]
    decide
  unfold processRankings
  rw [show validateData exFrameRanked = none from by decide]
  dsimp only
  rw [show filterEntries exFrameRanked = (exFrameRanked, ⟨exFrameRanked.cols, []⟩)
    from by decide]
  dsimp only
  rw [if_neg (by decide : ¬ (exFrameRanked.rows = [])), h3]
  rw [if_pos (by decide :
    Frame.colIdx ⟨["原名", "Notes", "Bangumi", "Filmarks", "综合评分"],
       [[CellV.text "A", CellV.absent, CellV.num 8, CellV.absent, CellV.num 8]]⟩
      COMPREHENSIVE_SCORE ≠ none)]
  rw [show calculateRanking
      ⟨["原名", "Notes", "Bangumi", "Filmarks", "综合评分"],
       [[CellV.text "A", CellV.absent, CellV.num 8, CellV.absent, CellV.num 8]]⟩
      COMPREHENSIVE_SCORE COMPREHENSIVE_RANKING_COLUMN =
      ⟨["原名", "Notes", "Bangumi", "Filmarks", "综合评分", "排名"],
       [[CellV.text "A", CellV.absent, CellV.num 8, CellV.absent, CellV.num 8, CellV.num 1]]⟩
    from by decide]
  rw [show addPlatformRankings
      ⟨["原名", "Notes", "Bangumi", "Filmarks", "综合评分", "排名"],
       [[CellV.text "A", CellV.absent, CellV.num 8, CellV.absent, CellV.num 8, CellV.num 1]]⟩ =
      (⟨["原名", "Notes", "Bangumi", "Filmarks", "综合评分", "排名",
         "Bangumi_Rank", "Anilist_Rank", "Myanimelist_Rank", "Filmarks_Rank"],
        [[CellV.text "A", CellV.absent, CellV.num 8, CellV.absent, CellV.num 8,
          CellV.num 1, CellV.num 1, CellV.absent, CellV.absent, CellV.absent]]⟩,
       [Diag.platformScoreColumnMissing "Anilist",
        Diag.platformScoreColumnMissing "MyAnimeList"])
    from by decide]
  dsimp only
  rw [show addRankingColumnsToExcluded
      ⟨["原名", "Notes", "Bangumi", "Filmarks", "综合评分", "排名",
        "Bangumi_Rank", "Anilist_Rank", "Myanimelist_Rank", "Filmarks_Rank"],
       [[CellV.text "A", CellV.absent, CellV.num 8, CellV.absent, CellV.num 8,
         CellV.num 1, CellV.num 1, CellV.absent, CellV.absent, CellV.absent]]⟩
      ⟨exFrameRanked.cols, []⟩ =
      ⟨["原名", "Notes", "Bangumi", "Filmarks"], []⟩
    from by decide]

/-- C1 evidence at the failing input `exFrameRanked` (record "A": Bangumi
score 8, Filmarks score absent).  The record is ranked — its composite
score is 8 — yet its Filmarks rank value is a pandas-missing value, and
the writer maps a missing value to `none` (an empty cell), never to the
literal text "NaN": the per-row write emits `("Filmarks_Rank", none)`.
Moreover a rank column computed by the ranking service never contains any
text value at all, so the writer's "NaN" branch is unreachable for rank
cells, contradicting the claim (the output cell stays empty instead of
holding the "NaN" sentinel). -/
theorem c1_nan_sentinel_code_bug :
    ((processRankings exFrameRanked).valid_data.cell
        ((processRankings exFrameRanked).valid_data.rows.getD 0 [])
        COMPREHENSIVE_SCORE = CellV.num 8) ∧
    ((processRankings exFrameRanked).valid_data.cell
        ((processRankings exFrameRanked).valid_data.rows.getD 0 [])
        "Filmarks_Rank" = CellV.absent) ∧
    ("Filmarks_Rank", (none : Option CellV)) ∈
      writeRowCells (processRankings exFrameRanked).valid_data.cols
        (processRankings exFrameRanked).valid_data
        ((processRankings exFrameRanked).valid_data.rows.getD 0 []) ∧
    (∀ p ∈ writeRowCells (processRankings exFrameRanked).valid_data.cols
        (processRankings exFrameRanked).valid_data
        ((processRankings exFrameRanked).valid_data.rows.getD 0 []),
      p.2 ≠ some (CellV.text "NaN")) ∧
    writeCellValue CellV.absent = none ∧
    (∀ v : CellV, writeCellValue v = some (CellV.text "NaN") → v = CellV.text "NaN") ∧
    (∀ (col : List CellV) (v : CellV), v ∈ rankColumn col → ∀ s, v ≠ CellV.text s) := by
  rw [processRankings_exFrameRanked]
  refine ⟨by decide, by decide, by decide, by decide, rfl, ?_, ?_⟩
  · intro v hv
    cases v with
    | absent => exact absurd hv (by simp [writeCellValue])
    | num q => simp [writeCellValue] at hv
    | text s =>
      by_cases h : s = "NaN"
      · rw [h]
      · simp [writeCellValue, h] at hv
  · intro col v hv s
    unfold rankColumn at hv
    by_cases hempty : (col.map toNumCoerce).filterMap id = []
    · rw [if_pos hempty] at hv
      rcases List.mem_map.mp hv with ⟨c, _, hc⟩
      rw [← hc]
      simp
    · rw [if_neg hempty] at hv
      rcases List.mem_map.mp hv with ⟨c, _, hc⟩
      rcases c with _ | q
      · rw [← hc]
        simp
      · rw [← hc]
        simp

/-- The backup path differs from the destination path. -/
theorem backupPath_ne (p : String) : backupPath p ≠ p := by
  intro h
  have hlen := congrArg String.length h
  rw [backupPath, String.length_append] at hlen
  have h7 : ".backup".length = 7 := by decide
  omega

/-- C7: under fault injection on the copy-free commit (any of the three
protocol steps may fail; the backup-restore recovery move is assumed to
succeed, and the temp file exists when the commit starts with no stale
backup present): if the commit fails, the destination is exactly as
before; in every outcome no `.backup` file remains and the temp file is
gone; and on success the destination holds the temp file's content. -/
theorem c7_atomic_commit (f1 f2 f3 : Bool) (fs : FileSys) (tmp fin : String)
    (htf : tmp ≠ fin) (htb : tmp ≠ backupPath fin)
    (hnb : fs (backupPath fin) = none) (htmp : (fs tmp).isSome = true) :
    ((writeCommit f1 f2 f3 false fs tmp fin).1 = false →
      (writeCommit f1 f2 f3 false fs tmp fin).2 fin = fs fin) ∧
    (writeCommit f1 f2 f3 false fs tmp fin).2 (backupPath fin) = none ∧
    (writeCommit f1 f2 f3 false fs tmp fin).2 tmp = none ∧
    ((writeCommit f1 f2 f3 false fs tmp fin).1 = true →
      (writeCommit f1 f2 f3 false fs tmp fin).2 fin = fs tmp) := by
  have hbf : backupPath fin ≠ fin := backupPath_ne fin
  have hfb : fin ≠ backupPath fin := hbf.symm
  have hft : fin ≠ tmp := htf.symm
  have hbt : backupPath fin ≠ tmp := fun h => htb h.symm
  obtain ⟨t, ht⟩ := Option.isSome_iff_exists.mp htmp
  by_cases hfin : ∃ d, fs fin = some d
  · obtain ⟨d, hd⟩ := hfin
    cases f1
    · cases f2
      · cases f3
        · simp [writeCommit, atomicMoveFile, withFault, fsMove, fsRemove, fsExists,
            cleanupTemp, hd, ht, htf, htb, hbf, hfb, hft, hbt, hnb]
        · simp [writeCommit, atomicMoveFile, withFault, fsMove, fsRemove, fsExists,
            cleanupTemp, hd, ht, htf, htb, hbf, hfb, hft, hbt, hnb]
      · simp [writeCommit, atomicMoveFile, withFault, fsMove, fsRemove, fsExists,
          cleanupTemp, hd, ht, htf, htb, hbf, hfb, hft, hbt, hnb]
    · simp [writeCommit, atomicMoveFile, withFault, fsMove, fsRemove, fsExists,
        cleanupTemp, hd, ht, htf, htb, hbf, hfb, hft, hbt, hnb]
  · have hd : fs fin = none := by
      cases hx : fs fin
      · rfl
      · exact absurd ⟨_, hx⟩ hfin
    cases f2
    · simp [writeCommit, atomicMoveFile, withFault, fsMove, fsRemove, fsExists,
        cleanupTemp, hd, ht, htf, htb, hbf, hfb, hft, hbt, hnb]
    · simp [writeCommit, atomicMoveFile, withFault, fsMove, fsRemove, fsExists,
        cleanupTemp, hd, ht, htf, htb, hbf, hfb, hft, hbt, hnb]

/-- Witness for C7 at a concrete filesystem: destination "out" holds 2,
temp "t" holds 1, the temp→final move fails; afterwards the destination
still holds 2, no backup remains, and the temp file is gone. -/
theorem c7_atomic_commit_witness :
    ("t" ≠ "out" ∧ "t" ≠ backupPath "out") ∧
    ((writeCommit false true false false
        (fun p => if p = "t" then some 1 else if p = "out" then some 2 else none)
        "t" "out").1 = false →
      (writeCommit false true false false
        (fun p => if p = "t" then some 1 else if p = "out" then some 2 else none)
        "t" "out").2 "out" =
        (fun p => if p = "t" then some 1 else if p = "out" then some 2 else none) "out") ∧
    (writeCommit false true false false
        (fun p => if p = "t" then some 1 else if p = "out" then some 2 else none)
        "t" "out").2 (backupPath "out") = none ∧
    (writeCommit false true false false
        (fun p => if p = "t" then some 1 else if p = "out" then some 2 else none)
        "t" "out").2 "t" = none := by
  have h := c7_atomic_commit false true false
    (fun p => if p = "t" then some 1 else if p = "out" then some 2 else none)
    "t" "out" (by decide) (by decide) (by decide) (by decide)
  exact ⟨⟨by decide, by decide⟩, h.1, h.2.1, h.2.2.1⟩

/-- Lookup after a dict insertion. -/
theorem dictGet_put (d : Dict) (k k' : String) (v : ℕ) :
    dictGet (dictPut d k v) k' = if k = k' then some v else dictGet d k' := by
  unfold dictGet dictPut
  by_cases h : k = k'
  · rw [List.find?_cons_of_pos _ (by simp [h])]
    simp [h]
  · rw [List.find?_cons_of_neg _ (by simp [h])]
    simp [h]

/-- Membership after a dict insertion. -/
theorem dictHas_put (d : Dict) (k k' : String) (v : ℕ) :
    dictHas (dictPut d k v) k' = (k = k' || dictHas d k') := by
  unfold dictHas
  rw [dictGet_put]
  by_cases h : k = k' <;> simp [h]

/-- The index-shifting rebuild of `current_columns` only changes the
stored indices. -/
theorem dictGet_map_shift (d : Dict) (pos : ℕ) (k : String) :
    dictGet (d.map (fun p => (p.1, if p.2 ≥ pos then p.2 + 1 else p.2))) k =
      (dictGet d k).map (fun x => if x ≥ pos then x + 1 else x) := by
  induction d with
  | nil => rfl
  | cons a t ih =>
    unfold dictGet at *
    by_cases h : a.1 = k
    · rw [List.map_cons, List.find?_cons_of_pos _ (by simp [h]),
        List.find?_cons_of_pos _ (by simp [h])]
      rfl
    · rw [List.map_cons, List.find?_cons_of_neg _ (by simp [h]),
        List.find?_cons_of_neg _ (by simp [h])]
      exact ih

/-- The index-shifting rebuild keeps the key set. -/
theorem dictHas_map_shift (d : Dict) (pos : ℕ) (k : String) :
    dictHas (d.map (fun p => (p.1, if p.2 ≥ pos then p.2 + 1 else p.2))) k =
      dictHas d k := by
  unfold dictHas
  rw [dictGet_map_shift]
  cases dictGet d k <;> rfl

/-- Key list of a header row starting with a non-blank cell. -/
theorem headerKeys_cons_some (s : String) (t : List (Option String)) (hs0 : s ≠ "") :
    headerKeys (some s :: t) = pyStrip s :: headerKeys t := by
  simp [headerKeys, List.filterMap_cons, hs0]

/-- Key list of a header row starting with an empty cell. -/
theorem headerKeys_cons_none (t : List (Option String)) :
    headerKeys (none :: t) = headerKeys t := by
  simp [headerKeys, List.filterMap_cons]

/-- Key list of a header row starting with a blank string cell. -/
theorem headerKeys_cons_blank (t : List (Option String)) :
    headerKeys (some "" :: t) = headerKeys t := by
  simp [headerKeys, List.filterMap_cons]

/-- Keys of the header-scan loop: the starting dict's keys plus the
stripped truthy header values. -/
theorem dictHas_buildColumnsAux (hs : List (Option String)) :
    ∀ (i : ℕ) (d : Dict) (k : String),
      dictHas (buildColumnsAux hs i d) k = true ↔
        dictHas d k = true ∨ k ∈ headerKeys hs := by
  induction hs with
  | nil =>
    intro i d k
    simp [buildColumnsAux, headerKeys]
  | cons h t ih =>
    intro i d k
    cases h with
    | none =>
      rw [show buildColumnsAux (none :: t) i d = buildColumnsAux t (i + 1) d from rfl]
      rw [ih, headerKeys_cons_none]
    | some s =>
      by_cases hs0 : s = ""
      · rw [show buildColumnsAux (some s :: t) i d =
            if s = "" then buildColumnsAux t (i + 1) d
            else buildColumnsAux t (i + 1) (dictPut d (pyStrip s) i) from rfl]
        rw [if_pos hs0, ih, hs0, headerKeys_cons_blank]
      · rw [show buildColumnsAux (some s :: t) i d =
            if s = "" then buildColumnsAux t (i + 1) d
            else buildColumnsAux t (i + 1) (dictPut d (pyStrip s) i) from rfl]
        rw [if_neg hs0, ih, dictHas_put, headerKeys_cons_some s t hs0]
        constructor
        · intro hor
          rcases hor with h1 | h1
          · rcases Bool.or_eq_true_iff.mp h1 with h2 | h2
            · right
              exact List.mem_cons.mpr (Or.inl (decide_eq_true_eq.mp h2).symm)
            · left
              exact h2
          · right
            exact List.mem_cons.mpr (Or.inr h1)
        · intro hor
          rcases hor with h1 | h1
          · left
            exact Bool.or_eq_true_iff.mpr (Or.inr h1)
          · rcases List.mem_cons.mp h1 with h2 | h2
            · left
              exact Bool.or_eq_true_iff.mpr (Or.inl (decide_eq_true_eq.mpr h2.symm))
            · right
              exact h2

/-- `buildColumns` is consistent with its header row. -/
theorem colsInv_buildColumns (hs : List (Option String)) :
    ColsInv hs (buildColumns hs) := by
  intro k
  unfold buildColumns
  rw [dictHas_buildColumnsAux]
  simp [dictHas, dictGet]

/-- Inserting a non-blank header cell permutes the key multiset by adding
the new name. -/
theorem headerKeys_insertCol (hs : List (Option String)) (p : ℕ) (v : String)
    (hv : v ≠ "") :
    (headerKeys (insertCol hs p (some v))).Perm (pyStrip v :: headerKeys hs) := by
  unfold insertCol headerKeys
  rw [List.filterMap_append, List.filterMap_append]
  have hmid : List.filterMap (fun h =>
      match h with
      | some s => if s = "" then none else some (pyStrip s)
      | none => none) [some v] = [pyStrip v] := by
    simp [hv]
  rw [hmid, List.append_assoc]
  simp only [List.singleton_append]
  refine List.Perm.trans List.perm_middle ?_
  rw [← List.filterMap_append, List.take_append_drop]

/-- Behaviour of one insertion-loop iteration on a consistent state: the
map stays consistent, the key multiset grows at most by the rank name,
afterwards the rank column exists or the total column does not, and no
name's multiplicity exceeds `max previous 1`. -/
theorem insertStep_spec (hs : List (Option String)) (d : Dict)
    (cfg : String × String × String) (hinv : ColsInv hs d)
    (hne : cfg.2.2 ≠ "") (hsf : pyStrip cfg.2.2 = cfg.2.2) :
    ColsInv (insertStep (hs, d) cfg).1 (insertStep (hs, d) cfg).2 ∧
    (∀ k ∈ headerKeys hs, k ∈ headerKeys (insertStep (hs, d) cfg).1) ∧
    (∀ k ∈ headerKeys (insertStep (hs, d) cfg).1, k ∈ headerKeys hs ∨ k = cfg.2.2) ∧
    (cfg.2.2 ∈ headerKeys (insertStep (hs, d) cfg).1 ∨
      cfg.2.1 ∉ headerKeys (insertStep (hs, d) cfg).1) ∧
    (∀ r, (headerKeys (insertStep (hs, d) cfg).1).count r ≤
      max ((headerKeys hs).count r) 1) := by
  by_cases hhas : dictHas d cfg.2.2 = true
  · have hstep : insertStep (hs, d) cfg = (hs, d) := by
      unfold insertStep
      rw [if_pos hhas]
    rw [hstep]
    exact ⟨hinv, fun k hk => hk, fun k hk => Or.inl hk, Or.inl ((hinv _).mp hhas),
      fun r => le_max_left _ _⟩
  · rcases hget : dictGet d cfg.2.1 with _ | tidx
    · have hstep : insertStep (hs, d) cfg = (hs, d) := by
        unfold insertStep
        rw [if_neg hhas]
        dsimp only
        rw [hget]
      have hnot : cfg.2.1 ∉ headerKeys hs := by
        intro hm
        have := (hinv cfg.2.1).mpr hm
        unfold dictHas at this
        rw [hget] at this
        exact absurd this (by simp)
      rw [hstep]
      exact ⟨hinv, fun k hk => hk, fun k hk => Or.inl hk, Or.inr hnot,
        fun r => le_max_left _ _⟩
    · have hstep : insertStep (hs, d) cfg =
        (insertCol hs (tidx + 1) (some cfg.2.2),
         dictPut (d.map (fun p => (p.1, if p.2 ≥ tidx + 1 then p.2 + 1 else p.2)))
           cfg.2.2 (tidx + 1)) := by
        unfold insertStep
        rw [if_neg hhas]
        dsimp only
        rw [hget]
      rw [hstep]
      dsimp only
      have hperm := headerKeys_insertCol hs (tidx + 1) cfg.2.2 hne
      rw [hsf] at hperm
      have hmem : ∀ k, k ∈ headerKeys (insertCol hs (tidx + 1) (some cfg.2.2)) ↔
          k = cfg.2.2 ∨ k ∈ headerKeys hs := by
        intro k
        rw [hperm.mem_iff]
        exact List.mem_cons
      have hrank_not : cfg.2.2 ∉ headerKeys hs := fun hm => hhas ((hinv _).mpr hm)
      refine ⟨?_, ?_, ?_, ?_, ?_⟩
      · intro k
        rw [dictHas_put, dictHas_map_shift, hmem k]
        constructor
        · intro h1
          rcases Bool.or_eq_true_iff.mp h1 with h2 | h2
          · exact Or.inl (decide_eq_true_eq.mp h2).symm
          · exact Or.inr ((hinv k).mp h2)
        · intro h1
          rcases h1 with h2 | h2
          · exact Bool.or_eq_true_iff.mpr (Or.inl (decide_eq_true_eq.mpr h2.symm))
          · exact Bool.or_eq_true_iff.mpr (Or.inr ((hinv k).mpr h2))
      · intro k hk
        exact (hmem k).mpr (Or.inr hk)
      · intro k hk
        rcases (hmem k).mp hk with h | h
        · exact Or.inr h
        · exact Or.inl h
      · exact Or.inl ((hmem _).mpr (Or.inl rfl))
      · intro r
        rw [hperm.count_eq, List.count_cons]
        by_cases hr : r = cfg.2.2
        · subst hr
          have h0 : (headerKeys hs).count cfg.2.2 = 0 :=
            List.count_eq_zero.mpr hrank_not
          simp [h0]
        · have hr2 : ¬ (cfg.2.2 = r) := fun h => hr h.symm
          simp only [hr, hr2, if_false, decide_eq_true_eq, beq_iff_eq, add_zero]
          exact le_max_left _ _

/-- Behaviour of the whole insertion loop on a consistent state. -/
theorem insertFold_spec (cs : List (String × String × String)) :
    ∀ (hs : List (Option String)) (d : Dict), ColsInv hs d →
      (∀ c ∈ cs, c.2.2 ≠ "" ∧ pyStrip c.2.2 = c.2.2) →
      (∀ c ∈ cs, ∀ c' ∈ cs, c.2.1 ≠ c'.2.2) →
      ColsInv (cs.foldl insertStep (hs, d)).1 (cs.foldl insertStep (hs, d)).2 ∧
      (∀ k ∈ headerKeys hs, k ∈ headerKeys (cs.foldl insertStep (hs, d)).1) ∧
      (∀ k ∈ headerKeys (cs.foldl insertStep (hs, d)).1,
        k ∈ headerKeys hs ∨ ∃ c ∈ cs, k = c.2.2) ∧
      (∀ c ∈ cs, c.2.2 ∈ headerKeys (cs.foldl insertStep (hs, d)).1 ∨
        c.2.1 ∉ headerKeys (cs.foldl insertStep (hs, d)).1) ∧
      (∀ r, (headerKeys (cs.foldl insertStep (hs, d)).1).count r ≤
        max ((headerKeys hs).count r) 1) := by
  induction cs with
  | nil =>
    intro hs d hinv _ _
    exact ⟨hinv, fun k hk => hk, fun k hk => Or.inl hk, fun c hc => absurd hc (by simp),
      fun r => le_max_left _ _⟩
  | cons c cs ih =>
    intro hs d hinv hconds hdist
    have hc0 := hconds c (List.mem_cons_self c cs)
    have hS := insertStep_spec hs d c hinv hc0.1 hc0.2
    rcases hst : insertStep (hs, d) c with ⟨hs1, d1⟩
    rw [hst] at hS
    dsimp only at hS
    have hfold : (c :: cs).foldl insertStep (hs, d) = cs.foldl insertStep (hs1, d1) := by
      rw [List.foldl_cons, hst]
    rw [hfold]
    have hIH := ih hs1 d1 hS.1
      (fun c' hc' => hconds c' (List.mem_cons_of_mem c hc'))
      (fun c' hc' c'' hc'' =>
        hdist c' (List.mem_cons_of_mem c hc') c'' (List.mem_cons_of_mem c hc''))
    refine ⟨hIH.1, ?_, ?_, ?_, ?_⟩
    · intro k hk
      exact hIH.2.1 k (hS.2.1 k hk)
    · intro k hk
      rcases hIH.2.2.1 k hk with h1 | ⟨c', hc', h1⟩
      · rcases hS.2.2.1 k h1 with h2 | h2
        · exact Or.inl h2
        · exact Or.inr ⟨c, List.mem_cons_self c cs, h2⟩
      · exact Or.inr ⟨c', List.mem_cons_of_mem c hc', h1⟩
    · intro c' hc'
      rcases List.mem_cons.mp hc' with h1 | h1
      · subst h1
        rcases hS.2.2.2.1 with h2 | h2
        · exact Or.inl (hIH.2.1 _ h2)
        · right
          intro hm
          rcases hIH.2.2.1 _ hm with h3 | ⟨c'', hc'', h3⟩
          · exact h2 h3
          · exact hdist c' (List.mem_cons_self c' cs) c''
              (List.mem_cons_of_mem c' hc'') h3
      · exact hIH.2.2.2.1 c' h1
    · intro r
      have h1 := hIH.2.2.2.2 r
      have h2 := hS.2.2.2.2 r
      omega

/-- An iteration whose rank column already exists, or whose total column
is missing, leaves the state unchanged. -/
theorem insertStep_skip (hs : List (Option String)) (d : Dict)
    (cfg : String × String × String) (hinv : ColsInv hs d)
    (hpost : cfg.2.2 ∈ headerKeys hs ∨ cfg.2.1 ∉ headerKeys hs) :
    insertStep (hs, d) cfg = (hs, d) := by
  rcases hpost with h | h
  · unfold insertStep
    rw [if_pos ((hinv _).mpr h)]
  · have hfalse : dictHas d cfg.2.1 = false := by
      cases hx : dictHas d cfg.2.1
      · rfl
      · exact absurd ((hinv _).mp hx) h
    have hget : dictGet d cfg.2.1 = none := by
      unfold dictHas at hfalse
      cases hx : dictGet d cfg.2.1
      · rfl
      · rw [hx] at hfalse
        exact absurd hfalse (by simp)
    by_cases hhas : dictHas d cfg.2.2 = true
    · unfold insertStep
      rw [if_pos hhas]
    · unfold insertStep
      rw [if_neg hhas]
      dsimp only
      rw [hget]

/-- A loop all of whose iterations skip leaves the state unchanged. -/
theorem insertFold_skip (cs : List (String × String × String)) :
    ∀ (hs : List (Option String)) (d : Dict), ColsInv hs d →
      (∀ c ∈ cs, c.2.2 ∈ headerKeys hs ∨ c.2.1 ∉ headerKeys hs) →
      cs.foldl insertStep (hs, d) = (hs, d) := by
  induction cs with
  | nil =>
    intro hs d _ _
    rfl
  | cons c cs ih =>
    intro hs d hinv hpost
    rw [List.foldl_cons, insertStep_skip hs d c hinv (hpost c (List.mem_cons_self c cs))]
    exact ih hs d hinv (fun c' hc' => hpost c' (List.mem_cons_of_mem c hc'))

/-- C9: the rank-column insertion is idempotent — on the output of a
first run, the second run detects each of the four rank headers (or the
absence of the matching total header) in the rebuilt header map and skips
every insertion, so the header row is unchanged; and if the input header
row mentions each rank name at most once, so does the output (no
duplicate rank columns are ever created). -/
theorem c9_idempotent_insertion :
    (∀ hs, insertRankingColumns (insertRankingColumns hs) = insertRankingColumns hs) ∧
    (∀ (hs : List (Option String)) (r : String), (headerKeys hs).count r ≤ 1 →
      (headerKeys (insertRankingColumns hs)).count r ≤ 1) := by
  have hconds : ∀ c ∈ rankingConfigs, c.2.2 ≠ "" ∧ pyStrip c.2.2 = c.2.2 := by decide
  have hdist : ∀ c ∈ rankingConfigs, ∀ c' ∈ rankingConfigs, c.2.1 ≠ c'.2.2 := by decide
  constructor
  · intro hs
    have hF := insertFold_spec rankingConfigs hs (buildColumns hs)
      (colsInv_buildColumns hs) hconds hdist
    conv_lhs => rw [insertRankingColumns]
    rw [insertFold_skip rankingConfigs (insertRankingColumns hs)
      (buildColumns (insertRankingColumns hs))
      (colsInv_buildColumns _) hF.2.2.2.1]
  · intro hs r hr
    have hF := insertFold_spec rankingConfigs hs (buildColumns hs)
      (colsInv_buildColumns hs) hconds hdist
    have h1 := hF.2.2.2.2 r
    unfold insertRankingColumns
    omega

/-- Witness for C9 at a concrete header row. -/
theorem c9_idempotent_insertion_witness :
    insertRankingColumns (insertRankingColumns [some "原名", some "Bangumi_total"]) =
      insertRankingColumns [some "原名", some "Bangumi_total"] ∧
    (headerKeys (insertRankingColumns [some "原名", some "Bangumi_total"])).count
      "Bangumi_Rank" ≤ 1 :=
  ⟨c9_idempotent_insertion.1 [some "原名", some "Bangumi_total"],
   c9_idempotent_insertion.2 [some "原名", some "Bangumi_total"] "Bangumi_Rank" (by decide)⟩

/-- The reapply loop never overwrites an existing cell value. -/
theorem reapplyFold_preserves_values
    (origHs currHeaders : List (Option String)) (maxCol : ℕ) :
    ∀ (links : List HLink) (st : (ℕ → ℕ → Option String) × (ℕ → ℕ → Option CellV))
      (r c : ℕ) (x : CellV), st.2 r c = some x →
      (links.foldl (reapplyStep origHs currHeaders maxCol) st).2 r c = some x := by
  intro links
  induction links with
  | nil =>
    intro st r c x hx
    exact hx
  | cons l t ih =>
    intro st r c x hx
    rw [List.foldl_cons]
    apply ih
    unfold reapplyStep
    rcases hres : resolveCol origHs currHeaders maxCol l.col with _ | nc
    · exact hx
    · dsimp only
      by_cases hp : r = l.row ∧ c = nc
      · rw [if_pos hp, hx]
      · rw [if_neg hp]
        exact hx

/-- Every hyperlink present after the reapply loop comes from the initial
state or from some collected hyperlink resolved to that position. -/
theorem reapplyFold_links_origin
    (origHs currHeaders : List (Option String)) (maxCol : ℕ) :
    ∀ (links : List HLink) (st : (ℕ → ℕ → Option String) × (ℕ → ℕ → Option CellV))
      (r c : ℕ) (t : String),
      (links.foldl (reapplyStep origHs currHeaders maxCol) st).1 r c = some t →
      st.1 r c = some t ∨
        ∃ l ∈ links, l.row = r ∧
          resolveCol origHs currHeaders maxCol l.col = some c ∧ l.target = t := by
  intro links
  induction links with
  | nil =>
    intro st r c t ht
    exact Or.inl ht
  | cons l tl ih =>
    intro st r c t ht
    rw [List.foldl_cons] at ht
    rcases ih _ r c t ht with h1 | ⟨l', hl', h1⟩
    · unfold reapplyStep at h1
      rcases hres : resolveCol origHs currHeaders maxCol l.col with _ | nc
      · rw [hres] at h1
        exact Or.inl h1
      · rw [hres] at h1
        dsimp only at h1
        by_cases hp : r = l.row ∧ c = nc
        · rw [if_pos hp] at h1
          right
          refine ⟨l, List.mem_cons_self l tl, hp.1.symm, ?_, Option.some_inj.mp h1⟩
          rw [hres, hp.2]
        · rw [if_neg hp] at h1
          exact Or.inl h1
    · exact Or.inr ⟨l', List.mem_cons_of_mem l hl', h1⟩

/-- A hyperlink attached at a position survives the rest of the loop when
every later hyperlink resolved to the same position carries the same
target. -/
theorem reapplyFold_link_survives
    (origHs currHeaders : List (Option String)) (maxCol : ℕ) :
    ∀ (links : List HLink) (st : (ℕ → ℕ → Option String) × (ℕ → ℕ → Option CellV))
      (r0 c0 : ℕ) (t0 : String),
      (∀ l ∈ links, l.row = r0 →
        resolveCol origHs currHeaders maxCol l.col = some c0 → l.target = t0) →
      (st.1 r0 c0 = some t0 ∨
        ∃ l ∈ links, l.row = r0 ∧
          resolveCol origHs currHeaders maxCol l.col = some c0 ∧ l.target = t0) →
      (links.foldl (reapplyStep origHs currHeaders maxCol) st).1 r0 c0 = some t0 := by
  intro links
  induction links with
  | nil =>
    intro st r0 c0 t0 _ hd
    rcases hd with h | ⟨l, hl, _⟩
    · exact h
    · exact absurd hl (List.not_mem_nil l)
  | cons l tl ih =>
    intro st r0 c0 t0 hsame hd
    rw [List.foldl_cons]
    by_cases hmaps : l.row = r0 ∧ resolveCol origHs currHeaders maxCol l.col = some c0
    · apply ih _ r0 c0 t0
        (fun l' hl' => hsame l' (List.mem_cons_of_mem l hl'))
      left
      unfold reapplyStep
      rw [hmaps.2]
      dsimp only
      rw [if_pos ⟨hmaps.1.symm, rfl⟩]
      rw [hsame l (List.mem_cons_self l tl) hmaps.1 hmaps.2]
    · apply ih _ r0 c0 t0
        (fun l' hl' => hsame l' (List.mem_cons_of_mem l hl'))
      have hkeep : (reapplyStep origHs currHeaders maxCol st l).1 r0 c0 = st.1 r0 c0 := by
        unfold reapplyStep
        rcases hres : resolveCol origHs currHeaders maxCol l.col with _ | nc
        · rfl
        · dsimp only
          rw [if_neg ?_]
          intro hp
          exact hmaps ⟨hp.1.symm, by rw [hres, hp.2]⟩
      rcases hd with h | ⟨l', hl', h⟩
      · left
        rw [hkeep]
        exact h
      · rcases List.mem_cons.mp hl' with h2 | h2
        · subst h2
          exact absurd ⟨h.1, h.2.1⟩ hmaps
        · exact Or.inr ⟨l', h2, h⟩

/-- C8 counterexample: the input workbook has header "A" with a hyperlink
at row 3 of that column, but the reapply step reloads the original header
map from the hardcoded path `"mzzb.xlsx"`; when that load fails (the
input was given under a different name), every hyperlink has already been
cleared and the function returns, so the output carries the hyperlink on
no column at all — in particular not on header "A"'s column, although
that header exists in the output. -/
theorem c8_counterexample :
    dictGet (buildColumns [some "A"]) "A" = some 1 ∧
    (∀ c : ℕ,
      (reapplyHyperlinks none [some "A"] 1
        [⟨3, 1, "https://example", some (CellV.text "x")⟩]
        (fun _ _ => none)).1 3 c = none) := by
  exact ⟨by decide, fun c => rfl⟩

/-- C8 amended: provided the original header map is the input workbook's
(the reload of the hardcoded default path `"mzzb.xlsx"` succeeds and
yields the input's header row), every collected hyperlink whose original
column carries header name `H`, where `H` exists in the current (post-
insertion) header row, is reattached at the same row in the column whose
current header is `H`; under the uniqueness hypotheses (the target string
identifies that hyperlink, and no other hyperlink of the same row
resolves to the same cell with a different target) it appears on no other
column; and the reapply never overwrites an existing cell value (it sets
the display value only on empty cells). -/
theorem c8_amended
    (origHs currHeaders : List (Option String)) (maxCol : ℕ)
    (links : List HLink) (cellVal : ℕ → ℕ → Option CellV)
    (l : HLink) (H : String) (cH : ℕ)
    (hl : l ∈ links)
    (hH : origColName origHs l.col = some H)
    (hcur : dictGet (buildColumns currHeaders) H = some cH)
    (hle : cH ≤ maxCol)
    (huniq : ∀ l' ∈ links, l'.target = l.target → l' = l)
    (hsame : ∀ l' ∈ links, l'.row = l.row →
      resolveCol origHs currHeaders maxCol l'.col = some cH → l'.target = l.target) :
    (reapplyHyperlinks (some origHs) currHeaders maxCol links cellVal).1 l.row cH =
      some l.target ∧
    (∀ c' : ℕ,
      (reapplyHyperlinks (some origHs) currHeaders maxCol links cellVal).1 l.row c' =
        some l.target → c' = cH) ∧
    (∀ (r c : ℕ) (x : CellV), cellVal r c = some x →
      (reapplyHyperlinks (some origHs) currHeaders maxCol links cellVal).2 r c = some x) := by
  have hres : resolveCol origHs currHeaders maxCol l.col = some cH := by
    unfold resolveCol
    rw [hH]
    dsimp only
    rw [hcur]
    dsimp only
    rw [if_pos hle]
  refine ⟨?_, ?_, ?_⟩
  · apply reapplyFold_link_survives origHs currHeaders maxCol links _ l.row cH l.target hsame
    exact Or.inr ⟨l, hl, rfl, hres, rfl⟩
  · intro c' hc'
    rcases reapplyFold_links_origin origHs currHeaders maxCol links _ l.row c' l.target hc'
      with h1 | ⟨l', hl', _, h2, h3⟩
    · exact absurd h1 (by simp)
    · have : l' = l := huniq l' hl' h3
      subst this
      rw [hres] at h2
      exact (Option.some_inj.mp h2).symm
  · intro r c x hx
    exact reapplyFold_preserves_values origHs currHeaders maxCol links _ r c x hx

/-- Witness for C8 amended: header row ["原名", "Bangumi_total", "B_url"],
a rank column inserted at position 3 shifts "B_url" to position 4; the
hyperlink collected at (5, 3) under header "B_url" lands at (5, 4). -/
theorem c8_amended_witness :
    (reapplyHyperlinks (some [some "原名", some "Bangumi_total", some "B_url"])
        [some "原名", some "Bangumi_total", some "Bangumi_Rank", some "B_url"] 4
        [⟨5, 3, "https://example", some (CellV.text "link")⟩]
        (fun _ _ => none)).1 5 4 = some "https://example" ∧
    (∀ c' : ℕ,
      (reapplyHyperlinks (some [some "原名", some "Bangumi_total", some "B_url"])
        [some "原名", some "Bangumi_total", some "Bangumi_Rank", some "B_url"] 4
        [⟨5, 3, "https://example", some (CellV.text "link")⟩]
        (fun _ _ => none)).1 5 c' = some "https://example" → c' = 4) ∧
    (∀ (r c : ℕ) (x : CellV), (fun _ _ => (none : Option CellV)) r c = some x →
      (reapplyHyperlinks (some [some "原名", some "Bangumi_total", some "B_url"])
        [some "原名", some "Bangumi_total", some "Bangumi_Rank", some "B_url"] 4
        [⟨5, 3, "https://example", some (CellV.text "link")⟩]
        (fun _ _ => none)).2 r c = some x) := by
  have h := c8_amended [some "原名", some "Bangumi_total", some "B_url"]
    [some "原名", some "Bangumi_total", some "Bangumi_Rank", some "B_url"] 4
    [⟨5, 3, "https://example", some (CellV.text "link")⟩]
    (fun _ _ => none)
    ⟨5, 3, "https://example", some (CellV.text "link")⟩ "B_url" 4
    (by decide) (by decide) (by decide) (by decide)
    (by intro l' hl' _; simp at hl'; rw [hl'])
    (by intro l' hl' _ _; simp at hl'; rw [hl'])
  exact h

end Mzzb
